import Mathlib

/-!
Verification model of the doubleblind PII scrub engine.

The repository ships only packaging metadata (setup.py); the scrub engine
itself (category registry, fake value synthesizer, consistency cache, field
classifier, traversal engine, scrub session) is described by the design
document but its code is not present.  The engine definitions below are
therefore modelled from the specification text, as close to its words as a
shallow embedding allows.  setup.py is embedded directly from the source.
-/

/-- Modelled from the spec: the primitive output types a PII category can
declare (string, number, date); the synthesizer code is missing from the
repository. -/
inductive PrimType where
  | string
  | number
  | date
deriving DecidableEq

/-- Modelled from the spec: scalar values of the object graph (string, number,
date primitives); the data model code is missing from the repository. -/
inductive Value where
  | vstr (s : String)
  | vnum (n : Int)
  | vdate (d : Nat)
deriving DecidableEq

/-- Modelled from the spec: the primitive type of a scalar value. -/
def Value.primType : Value → PrimType
  | .vstr _ => .string
  | .vnum _ => .number
  | .vdate _ => .date

/-- Modelled from the spec: the error taxonomy of section 7; the error
definitions are missing from the repository. -/
inductive ScrubError where
  | unknownCategoryError
  | duplicateCategoryError
  | typeMismatchError
  | schemaMismatchError
  | synthesisExhaustedError
  | maxDepthExceededError
  | cyclicGraphError
deriving DecidableEq

/-- Modelled from the spec: a Field Descriptor carries the field name and the
optional PII category tag declared at schema-definition time; the schema code
is missing from the repository (declared structural type and locale override
are not needed by any claim and are omitted). -/
structure FieldDesc where
  name : String
  category : Option String
deriving DecidableEq

/-- Modelled from the spec: one object-graph node, polymorphic over Scalar,
Sequence, Mapping and Record; children are references (ids) into a node
store, so that shared and cyclic object graphs are representable, as in the
dynamic language the engine is written in.  The graph code is missing from
the repository. -/
inductive NodeData where
  | scalar (v : Value)
  | seq (elems : List Nat)
  | map (entries : List (String × Nat))
  | record (fields : List (FieldDesc × Nat))
deriving DecidableEq

/-- Modelled from the spec: an input object graph, a store of nodes addressed
by ids plus the id of the root node. -/
structure Graph where
  nodes : List (Nat × NodeData)
  root : Nat

/-- Modelled from the spec: the freshly reconstructed output graph returned by
the traversal engine, a pure tree. -/
inductive Node where
  | scalar (v : Value)
  | seq (elems : List Node)
  | map (entries : List (String × Node))
  | record (fields : List (FieldDesc × Node))

/-- Modelled from the spec: the Consistency Cache, keyed by
(category tag, original value) with the stored synthetic value; the cache
code is missing from the repository.  Insertions prepend entries. -/
structure Cache where
  entries : List ((String × Value) × Value)

/-- Modelled from the spec: the empty cache a fresh scrub session starts
with. -/
def emptyCache : Cache := ⟨[]⟩

/-- Modelled from the spec: cache lookup by (category, original value). -/
def Cache.lookup (c : Cache) (cat : String) (orig : Value) : Option Value :=
  (c.entries.find? (fun e => decide (e.1 = (cat, orig)))).map (fun e => e.2)

/-- Modelled from the spec: the reverse index of already-issued synthetic
values for one category, read off the cache entries. -/
def Cache.issuedFor (c : Cache) (cat : String) : List Value :=
  c.entries.filterMap (fun e => if e.1.1 = cat then some e.2 else none)

/-- Modelled from the spec: storing a fresh (category, original) to synthetic
value binding. -/
def Cache.insert (c : Cache) (cat : String) (orig cand : Value) : Cache :=
  ⟨((cat, orig), cand) :: c.entries⟩

/-- Modelled from the spec: the bounded collision-retry loop of the
Consistency Cache.  The factory is indexed by the attempt number; a candidate
colliding with an already-issued synthetic value of the category is rejected
and the factory re-invoked, until the attempt budget is exhausted, which
fails with SynthesisExhaustedError and leaves the cache unchanged. -/
def Cache.create (c : Cache) (cat : String) (orig : Value)
    (factory : Nat → Except ScrubError Value) : Nat → Nat → (Except ScrubError Value) × Cache
  | _, 0 => (.error .synthesisExhaustedError, c)
  | i, n + 1 =>
    match factory i with
    | .error e => (.error e, c)
    | .ok cand =>
      if cand ∈ c.issuedFor cat then Cache.create c cat orig factory (i + 1) n
      else (.ok cand, c.insert cat orig cand)

/-- Modelled from the spec: get_or_create of the Consistency Cache.  A cache
hit returns the stored synthetic value without invoking the factory; a miss
runs the factory with the bounded collision-retry loop (retryLimit retries
after the first call). -/
def Cache.get_or_create (c : Cache) (retryLimit : Nat) (cat : String) (orig : Value)
    (factory : Nat → Except ScrubError Value) : (Except ScrubError Value) × Cache :=
  match c.lookup cat orig with
  | some v => (.ok v, c)
  | none => Cache.create c cat orig factory 0 (retryLimit + 1)

/-- Modelled from the spec: a synthesis strategy registered for a category:
its declared primitive output type and its generator.  The generator takes
the original value (supporting format-preserving strategies) and the attempt
number standing for the successive draws of the external fake-data
capability; the locale parameter of the spec is not needed by any claim and
is omitted.  The registry code is missing from the repository. -/
structure Strategy where
  outType : PrimType
  gen : Value → Nat → Value

/-- Modelled from the spec: session configuration; traversal depth bound
(default 64), collision retry count (default 5), the per-call classification
override map and the field-name suffix patterns of the classifier
fallback. -/
structure Config where
  maxDepth : Nat
  retryLimit : Nat
  overrides : List (String × String)
  patterns : List (String × String)

/-- Modelled from the spec: the default configuration, depth bound 64 and
retry count 5. -/
def defaultConfig : Config := ⟨64, 5, [], []⟩

/-- Modelled from the spec: first-match association lookup used by the
registry, the override map and the node store. -/
def lookupStr {α : Type} (l : List (String × α)) (k : String) : Option α :=
  (l.find? (fun e => decide (e.1 = k))).map (fun e => e.2)

/-- Modelled from the spec: the Field Classifier.  Resolution order: explicit
per-call override map, then the category declared on the Field Descriptor,
then the heuristic field-name suffix fallback, else not sensitive. -/
def classify (cfg : Config) (fd : FieldDesc) : Option String :=
  match lookupStr cfg.overrides fd.name with
  | some c => some c
  | none =>
    match fd.category with
    | some c => some c
    | none => (cfg.patterns.find? (fun p => fd.name.endsWith p.1)).map (fun p => p.2)

/-- Modelled from the spec: Category Registry resolution; an unregistered
category is reported by the caller as UnknownCategoryError. -/
def resolve (reg : List (String × Strategy)) (cat : String) : Option Strategy :=
  lookupStr reg cat

/-- Modelled from the spec: Category Registry registration; registering an
already-present tag without the overwrite flag fails with
DuplicateCategoryError. -/
def register (reg : List (String × Strategy)) (cat : String) (strat : Strategy)
    (overwrite : Bool) : Except ScrubError (List (String × Strategy)) :=
  if (resolve reg cat).isSome && !overwrite then .error .duplicateCategoryError
  else .ok ((cat, strat) :: reg)

/-- Modelled from the spec: the Fake Value Synthesizer wrapping one resolved
strategy: each invocation draws a candidate from the generator and applies
the defensive boundary check, failing with TypeMismatchError when the
candidate does not have the declared primitive type. -/
def synthesize (strat : Strategy) (orig : Value) : Nat → Except ScrubError Value :=
  fun i =>
    let cand := strat.gen orig i
    if cand.primType = strat.outType then .ok cand else .error .typeMismatchError

/-- Modelled from the spec: node lookup in the store of an input graph. -/
def lookupNode (store : List (Nat × NodeData)) (id : Nat) : Option NodeData :=
  (store.find? (fun e => decide (e.1 = id))).map (fun e => e.2)

/-- Modelled from the spec: the child references of one node. -/
def childIds : NodeData → List Nat
  | .scalar _ => []
  | .seq es => es
  | .map kvs => kvs.map (fun kv => kv.2)
  | .record fs => fs.map (fun f => f.2)

/-- Modelled from the spec: element-wise traversal of a sequence, order
preserved, threading the session cache left to right; the first error stops
the traversal, the cache mutations made so far persisting. -/
def traverseElems (f : Cache → Nat → (Except ScrubError Node) × Cache) :
    Cache → List Nat → (Except ScrubError (List Node)) × Cache
  | cache, [] => (.ok [], cache)
  | cache, e :: es =>
    match f cache e with
    | (.error err, c) => (.error err, c)
    | (.ok n, c) =>
      match traverseElems f c es with
      | (.error err, c2) => (.error err, c2)
      | (.ok ns, c2) => (.ok (n :: ns), c2)

/-- Modelled from the spec: traversal of a mapping, keys kept identical and
never substituted, each value traversed recursively. -/
def traverseMapEntries (f : Cache → Nat → (Except ScrubError Node) × Cache) :
    Cache → List (String × Nat) → (Except ScrubError (List (String × Node))) × Cache
  | cache, [] => (.ok [], cache)
  | cache, kv :: kvs =>
    match f cache kv.2 with
    | (.error err, c) => (.error err, c)
    | (.ok n, c) =>
      match traverseMapEntries f c kvs with
      | (.error err, c2) => (.error err, c2)
      | (.ok ns, c2) => (.ok ((kv.1, n) :: ns), c2)

/-- Modelled from the spec: handling of one record field.  A classified field
must reference a scalar of the expected type of the resolved category
(SchemaMismatchError otherwise, UnknownCategoryError when the category is
unregistered) and is substituted through the Consistency Cache; an
unclassified field is traversed recursively. -/
def scrubField (cfg : Config) (reg : List (String × Strategy))
    (store : List (Nat × NodeData)) (f : Cache → Nat → (Except ScrubError Node) × Cache)
    (cache : Cache) (fd : FieldDesc) (cid : Nat) : (Except ScrubError Node) × Cache :=
  match classify cfg fd with
  | none => f cache cid
  | some cat =>
    match resolve reg cat with
    | none => (.error .unknownCategoryError, cache)
    | some strat =>
      match lookupNode store cid with
      | some (.scalar v) =>
        if v.primType = strat.outType then
          match Cache.get_or_create cache cfg.retryLimit cat v (synthesize strat v) with
          | (.ok w, c) => (.ok (.scalar w), c)
          | (.error e, c) => (.error e, c)
        else (.error .schemaMismatchError, cache)
      | _ => (.error .schemaMismatchError, cache)

/-- Modelled from the spec: traversal of the (Field Descriptor, child) pairs
of a record, applying the Field Classifier to each field and reconstructing
the field list with identical descriptors. -/
def traverseFields (cfg : Config) (reg : List (String × Strategy))
    (store : List (Nat × NodeData)) (f : Cache → Nat → (Except ScrubError Node) × Cache) :
    Cache → List (FieldDesc × Nat) → (Except ScrubError (List (FieldDesc × Node))) × Cache
  | cache, [] => (.ok [], cache)
  | cache, fc :: fcs =>
    match scrubField cfg reg store f cache fc.1 fc.2 with
    | (.error err, c) => (.error err, c)
    | (.ok n, c) =>
      match traverseFields cfg reg store f c fcs with
      | (.error err, c2) => (.error err, c2)
      | (.ok ns, c2) => (.ok ((fc.1, n) :: ns), c2)

/-- Modelled from the spec: the Traversal Engine.  A node already on the
current path is a detected cycle (CyclicGraphError); an exhausted depth
budget fails with MaxDepthExceededError rather than recursing unboundedly;
scalars are returned unchanged; sequences, mappings and records are rebuilt
isomorphically with classified record fields substituted through the
Consistency Cache.  A dangling node reference is treated as a schema
mismatch. -/
def traverseNode (cfg : Config) (reg : List (String × Strategy))
    (store : List (Nat × NodeData)) :
    Nat → List Nat → Cache → Nat → (Except ScrubError Node) × Cache
  | 0, path, cache, id =>
    if id ∈ path then (.error .cyclicGraphError, cache)
    else (.error .maxDepthExceededError, cache)
  | d + 1, path, cache, id =>
    if id ∈ path then (.error .cyclicGraphError, cache)
    else
      match lookupNode store id with
      | none => (.error .schemaMismatchError, cache)
      | some (.scalar v) => (.ok (.scalar v), cache)
      | some (.seq es) =>
        match traverseElems (traverseNode cfg reg store d (id :: path)) cache es with
        | (.error err, c) => (.error err, c)
        | (.ok ns, c) => (.ok (.seq ns), c)
      | some (.map kvs) =>
        match traverseMapEntries (traverseNode cfg reg store d (id :: path)) cache kvs with
        | (.error err, c) => (.error err, c)
        | (.ok ns, c) => (.ok (.map ns), c)
      | some (.record fs) =>
        match traverseFields cfg reg store (traverseNode cfg reg store d (id :: path)) cache fs with
        | (.error err, c) => (.error err, c)
        | (.ok ns, c) => (.ok (.record ns), c)

/-- Modelled from the spec: the Scrub Session entry point.  It runs the
Traversal Engine over the input graph with the configured depth budget over
the session cache; the pair returned is the all-or-nothing result together
with the cache state the session keeps for subsequent calls. -/
def scrub (cfg : Config) (reg : List (String × Strategy)) (g : Graph)
    (cache : Cache) : (Except ScrubError Node) × Cache :=
  traverseNode cfg reg g.nodes cfg.maxDepth [] cache g.root

/-- Modelled from the spec: the session API surface, returning the scrub
result, the input graph as the call leaves it, and the cache kept by the
session; the engine only reads the input graph, so the graph component is
returned untouched. -/
def scrubSession (cfg : Config) (reg : List (String × Strategy)) (g : Graph)
    (cache : Cache) : (Except ScrubError Node) × Graph × Cache :=
  match scrub cfg reg g cache with
  | (r, c) => (r, g, c)

/-- Modelled from the spec: the internal soundness invariant of the
Consistency Cache: keys are unique, and within each category no two entries
share a synthetic value (reverse uniqueness). -/
def Cache.Ok (c : Cache) : Prop :=
  (c.entries.map (fun e => e.1)).Nodup ∧ ∀ cat, (c.issuedFor cat).Nodup

/-- Modelled from the spec: one later substitution request against the
session cache, as performed by later traversal steps or later scrub calls of
the same session. -/
structure CacheOp where
  retries : Nat
  cat : String
  orig : Value
  factory : Nat → Except ScrubError Value

/-- Modelled from the spec: running one substitution request against the
session cache; a failing request raises and leaves the cache as the attempt
left it (unchanged, since the retry loop only inserts on success). -/
def applyOp (c : Cache) (op : CacheOp) : Cache :=
  (Cache.get_or_create c op.retries op.cat op.orig op.factory).2

/-- Modelled from the spec: the cache state after a sequence of later
substitution requests. -/
def applyOps (c : Cache) (ops : List CacheOp) : Cache :=
  ops.foldl applyOp c

/-- A value appears somewhere in an output graph (at any scalar leaf). -/
inductive OutLeaf : Node → Value → Prop where
  | scalar : ∀ v, OutLeaf (.scalar v) v
  | seq : ∀ ns n v, n ∈ ns → OutLeaf n v → OutLeaf (.seq ns) v
  | map : ∀ kvs kv v, kv ∈ kvs → OutLeaf kv.2 v → OutLeaf (.map kvs) v
  | record : ∀ fs f v, f ∈ fs → OutLeaf f.2 v → OutLeaf (.record fs) v

/-- A value sits at some unclassified scalar position of the input graph:
reachable from the given node without passing through a classified record
field. -/
inductive UnclassifiedLeaf (cfg : Config) (store : List (Nat × NodeData)) :
    Nat → Value → Prop where
  | scalar : ∀ id v, lookupNode store id = some (.scalar v) →
      UnclassifiedLeaf cfg store id v
  | seq : ∀ id es e v, lookupNode store id = some (.seq es) → e ∈ es →
      UnclassifiedLeaf cfg store e v → UnclassifiedLeaf cfg store id v
  | map : ∀ id kvs kv v, lookupNode store id = some (.map kvs) → kv ∈ kvs →
      UnclassifiedLeaf cfg store kv.2 v → UnclassifiedLeaf cfg store id v
  | record : ∀ id fs f v, lookupNode store id = some (.record fs) → f ∈ fs →
      classify cfg f.1 = none → UnclassifiedLeaf cfg store f.2 v →
      UnclassifiedLeaf cfg store id v

/-- The original values of all classified fields of the input graph: for
every record node of the store, the scalar values referenced by its fields
that the classifier marks sensitive. -/
def classifiedOriginals (cfg : Config) (store : List (Nat × NodeData)) : List Value :=
  (store.map (fun e =>
    match e.2 with
    | .record fs =>
      fs.filterMap (fun f =>
        match classify cfg f.1 with
        | some _ =>
          match lookupNode store f.2 with
          | some (.scalar v) => some v
          | _ => none
        | none => none)
    | _ => [])).flatten

/-- Every registered strategy only generates values outside the given set,
the effectively-zero-collision-probability hypothesis of the spec for
non-leakage statements. -/
def AvoidsOriginals (reg : List (String × Strategy)) (s : List Value) : Prop :=
  ∀ cat strat, resolve reg cat = some strat → ∀ orig i, strat.gen orig i ∉ s

mutual

/-- Output isomorphism: the output tree has the same shape as the input graph
below the given node (same node kinds, sequence lengths, mapping keys and
field descriptors in order), unclassified scalar leaves carry the identical
value, and classified record fields carry some scalar in place of their
scalar original.  Stated as a mutual inductive over nodes, sequence
elements, mapping entries and record fields. -/
inductive Scrubbed (cfg : Config) (store : List (Nat × NodeData)) : Nat → Node → Prop where
  | scalar : ∀ id v, lookupNode store id = some (.scalar v) →
      Scrubbed cfg store id (.scalar v)
  | seqNode : ∀ id es ns, lookupNode store id = some (.seq es) →
      ScrubbedElems cfg store es ns → Scrubbed cfg store id (.seq ns)
  | mapNode : ∀ id kvs kns, lookupNode store id = some (.map kvs) →
      ScrubbedEntries cfg store kvs kns → Scrubbed cfg store id (.map kns)
  | recordNode : ∀ id fs gs, lookupNode store id = some (.record fs) →
      ScrubbedFields cfg store fs gs → Scrubbed cfg store id (.record gs)

/-- Elements of a sequence, pointwise, length preserved. -/
inductive ScrubbedElems (cfg : Config) (store : List (Nat × NodeData)) :
    List Nat → List Node → Prop where
  | nil : ScrubbedElems cfg store [] []
  | cons : ∀ e n es ns, Scrubbed cfg store e n → ScrubbedElems cfg store es ns →
      ScrubbedElems cfg store (e :: es) (n :: ns)

/-- Entries of a mapping, pointwise, keys identical and in order. -/
inductive ScrubbedEntries (cfg : Config) (store : List (Nat × NodeData)) :
    List (String × Nat) → List (String × Node) → Prop where
  | nil : ScrubbedEntries cfg store [] []
  | cons : ∀ k e n kvs kns, Scrubbed cfg store e n →
      ScrubbedEntries cfg store kvs kns →
      ScrubbedEntries cfg store ((k, e) :: kvs) ((k, n) :: kns)

/-- Fields of a record, pointwise, descriptors identical and in order; an
unclassified field is scrubbed recursively, a classified field has a scalar
original and carries some scalar substitute. -/
inductive ScrubbedFields (cfg : Config) (store : List (Nat × NodeData)) :
    List (FieldDesc × Nat) → List (FieldDesc × Node) → Prop where
  | nil : ScrubbedFields cfg store [] []
  | consPlain : ∀ fd cid n fs gs, classify cfg fd = none →
      Scrubbed cfg store cid n → ScrubbedFields cfg store fs gs →
      ScrubbedFields cfg store ((fd, cid) :: fs) ((fd, n) :: gs)
  | consClassified : ∀ fd cid cat v w fs gs, classify cfg fd = some cat →
      lookupNode store cid = some (.scalar v) → ScrubbedFields cfg store fs gs →
      ScrubbedFields cfg store ((fd, cid) :: fs) ((fd, .scalar w) :: gs)

end

/-- A chain of child edges of the given length between two node ids of the
store; nesting depth of a graph is the length of such chains from the
root. -/
inductive Chain (store : List (Nat × NodeData)) : Nat → Nat → Nat → Prop where
  | nil : ∀ a, Chain store 0 a a
  | cons : ∀ a nd b n c, lookupNode store a = some nd → b ∈ childIds nd →
      Chain store n b c → Chain store (n + 1) a c

/-- The input graph contains a cycle reachable from the root. -/
def HasReachableCycle (store : List (Nat × NodeData)) (root : Nat) : Prop :=
  ∃ j m k, Chain store m root j ∧ Chain store (k + 1) j j

/-- How one engine step may evolve the session cache: entries are only added,
stored bindings keep answering lookups with the same synthetic value, the
soundness invariant is preserved, and every new synthetic value was produced
by a generator registered in the given registry. -/
def CacheEvolves (reg : List (String × Strategy)) (c c2 : Cache) : Prop :=
  (∀ e, e ∈ c.entries → e ∈ c2.entries) ∧
  (∀ cat o v, c.lookup cat o = some v → c2.lookup cat o = some v) ∧
  (Cache.Ok c → Cache.Ok c2) ∧
  (∀ e, e ∈ c2.entries → e ∈ c.entries ∨
    ∃ cat strat orig i, resolve reg cat = some strat ∧ e.2 = strat.gen orig i)

/-- Embedded from src/setup.py line 9: the version argument of the setup
call, the value of the CIRCLE_TAG environment variable with default
0.1.0. -/
def setupVersion (env : String → Option String) : String :=
  match env "CIRCLE_TAG" with
  | some v => v
  | none => "0.1.0"

/-- The packaging metadata arguments of the setup call that the claims are
about. -/
structure SetupArgs where
  name : String
  version : String
  python_requires : String
  install_requires : List String

/-- Embedded from src/setup.py lines 7-21: the setup call as a function of
the process environment (find_packages, long description and classifiers are
not needed by any claim and are omitted). -/
def setupArgs (env : String → Option String) : SetupArgs :=
  ⟨"doubleblind", setupVersion env, ">=3.0", ["faker", "msgspec"]⟩

/-- A classified email field, used by concrete instances below. -/
def emailFd : FieldDesc := ⟨"email", some "email"⟩

/-- An unclassified free-text field. -/
def noteFd : FieldDesc := ⟨"note", none⟩

/-- A field classified with a category that is never registered. -/
def ssnFd : FieldDesc := ⟨"ssn", some "ssn"⟩

/-- A strategy that always fakes the string value b. -/
def stratB : Strategy := ⟨PrimType.string, fun _ _ => .vstr "b"⟩

/-- A registry with only the email category. -/
def regB : List (String × Strategy) := [("email", stratB)]

/-- A record whose classified email field and unclassified note field both
hold the string a. -/
def gLeak : Graph :=
  ⟨[(0, .record [(emailFd, 1), (noteFd, 2)]),
    (1, .scalar (.vstr "a")), (2, .scalar (.vstr "a"))], 0⟩

/-- A two-node cyclic graph of sequences. -/
def gCyc : Graph := ⟨[(0, .seq [1]), (1, .seq [0])], 0⟩

/-- A graph whose only cycle sits behind a classified field: the email field
references a self-looping sequence. -/
def gClassCyc : Graph := ⟨[(0, .record [(emailFd, 1)]), (1, .seq [1])], 0⟩

/-- A configuration with a small depth bound of two. -/
def cfgSmall : Config := ⟨2, 5, [], []⟩

/-- A record-free chain of nesting depth three. -/
def gDeep3 : Graph :=
  ⟨[(0, .seq [1]), (1, .seq [2]), (2, .seq [3]), (3, .scalar (.vnum 0))], 0⟩

/-- A graph of nesting depth three whose first record field carries the
unregistered ssn category. -/
def gDeepUnknown : Graph :=
  ⟨[(0, .record [(ssnFd, 1), (noteFd, 2)]), (1, .scalar (.vstr "a")),
    (2, .seq [3]), (3, .seq [4]), (4, .scalar (.vnum 0))], 0⟩

/-- A one-entry session cache mapping the email original a to b. -/
def cacheC0 : Cache := ⟨[(("email", .vstr "a"), .vstr "b")]⟩

lemma Cache.lookup_some_mem {c : Cache} {cat : String} {orig v : Value}
    (h : c.lookup cat orig = some v) :
    ∃ e, e ∈ c.entries ∧ e.1 = (cat, orig) ∧ e.2 = v := by
  unfold Cache.lookup at h
  cases hf : c.entries.find? (fun e => decide (e.1 = (cat, orig))) with
  | none => rw [hf] at h; simp at h
  | some e =>
    rw [hf] at h
    simp only [Option.map_some', Option.some.injEq] at h
    refine ⟨e, List.mem_of_find?_eq_some hf, ?_, h⟩
    have := List.find?_some hf
    simpa using this

lemma Cache.lookup_none_forall {c : Cache} {cat : String} {orig : Value}
    (h : c.lookup cat orig = none) :
    ∀ e ∈ c.entries, e.1 ≠ (cat, orig) := by
  unfold Cache.lookup at h
  cases hf : c.entries.find? (fun e => decide (e.1 = (cat, orig))) with
  | none =>
    intro e he
    have := List.find?_eq_none.mp hf e he
    simpa using this
  | some e => rw [hf] at h; simp at h

lemma Cache.lookup_insert_self (c : Cache) (cat : String) (orig cand : Value) :
    (c.insert cat orig cand).lookup cat orig = some cand := by
  unfold Cache.insert Cache.lookup
  rw [List.find?_cons_of_pos _ (by simp)]
  rfl

lemma Cache.lookup_insert_ne {c : Cache} {cat cat2 : String} {orig orig2 cand : Value}
    (h : (cat2, orig2) ≠ (cat, orig)) :
    (c.insert cat orig cand).lookup cat2 orig2 = c.lookup cat2 orig2 := by
  unfold Cache.insert Cache.lookup
  have hne : (((cat, orig), cand) : (String × Value) × Value).1 ≠ (cat2, orig2) := by
    intro he
    exact h he.symm
  rw [List.find?_cons_of_neg _ (by simpa using hne)]

lemma Cache.issuedFor_insert_self (c : Cache) (cat : String) (orig cand : Value) :
    (c.insert cat orig cand).issuedFor cat = cand :: c.issuedFor cat := by
  simp [Cache.insert, Cache.issuedFor, List.filterMap_cons]

lemma Cache.issuedFor_insert_ne {c : Cache} {cat cat2 : String} {orig cand : Value}
    (h : cat2 ≠ cat) :
    (c.insert cat orig cand).issuedFor cat2 = c.issuedFor cat2 := by
  have hne : cat ≠ cat2 := fun he => h he.symm
  simp [Cache.insert, Cache.issuedFor, List.filterMap_cons, hne]

lemma Cache.mem_issuedFor {c : Cache} {e : (String × Value) × Value} {cat : String}
    (he : e ∈ c.entries) (h : e.1.1 = cat) : e.2 ∈ c.issuedFor cat := by
  exact List.mem_filterMap.mpr ⟨e, he, by simp [h]⟩

lemma Cache.create_spec (c : Cache) (cat : String) (orig : Value)
    (factory : Nat → Except ScrubError Value) :
    ∀ n i, (∃ e, Cache.create c cat orig factory i n = (.error e, c)) ∨
      (∃ cand j, factory j = .ok cand ∧ cand ∉ c.issuedFor cat ∧
        Cache.create c cat orig factory i n = (.ok cand, c.insert cat orig cand)) := by
  intro n
  induction n with
  | zero => intro i; exact Or.inl ⟨_, rfl⟩
  | succ n ih =>
    intro i
    cases hf : factory i with
    | error e => exact Or.inl ⟨e, by simp [Cache.create, hf]⟩
    | ok cand =>
      by_cases hc : cand ∈ c.issuedFor cat
      · have : Cache.create c cat orig factory i (n + 1) =
            Cache.create c cat orig factory (i + 1) n := by
          simp [Cache.create, hf, hc]
        rw [this]; exact ih (i + 1)
      · exact Or.inr ⟨cand, i, hf, hc, by simp [Cache.create, hf, hc]⟩

lemma Cache.create_exhausted (c : Cache) (cat : String) (orig : Value)
    (factory : Nat → Except ScrubError Value) :
    ∀ n i, (∀ j, j < n → ∃ v, factory (i + j) = .ok v ∧ v ∈ c.issuedFor cat) →
    Cache.create c cat orig factory i n = (.error .synthesisExhaustedError, c) := by
  intro n
  induction n with
  | zero => intro i _; rfl
  | succ n ih =>
    intro i h
    obtain ⟨v, hv, hcol⟩ := h 0 (Nat.succ_pos n)
    rw [Nat.add_zero] at hv
    have hstep : Cache.create c cat orig factory i (n + 1) =
        Cache.create c cat orig factory (i + 1) n := by
      simp [Cache.create, hv, hcol]
    rw [hstep]
    refine ih (i + 1) (fun j hj => ?_)
    have := h (j + 1) (by omega)
    rwa [show i + (j + 1) = i + 1 + j by omega] at this

lemma Cache.get_or_create_hit {c : Cache} {r : Nat} {cat : String} {orig v : Value}
    {f : Nat → Except ScrubError Value} (h : c.lookup cat orig = some v) :
    Cache.get_or_create c r cat orig f = (.ok v, c) := by
  unfold Cache.get_or_create
  rw [h]

lemma Cache.get_or_create_cases (c : Cache) (r : Nat) (cat : String) (orig : Value)
    (f : Nat → Except ScrubError Value) :
    (∃ v, c.lookup cat orig = some v ∧ Cache.get_or_create c r cat orig f = (.ok v, c)) ∨
    (c.lookup cat orig = none ∧
      ((∃ e, Cache.get_or_create c r cat orig f = (.error e, c)) ∨
       (∃ cand j, f j = .ok cand ∧ cand ∉ c.issuedFor cat ∧
         Cache.get_or_create c r cat orig f = (.ok cand, c.insert cat orig cand)))) := by
  cases hl : c.lookup cat orig with
  | some v => exact Or.inl ⟨v, rfl, Cache.get_or_create_hit hl⟩
  | none =>
    refine Or.inr ⟨rfl, ?_⟩
    have hu : Cache.get_or_create c r cat orig f = Cache.create c cat orig f 0 (r + 1) := by
      unfold Cache.get_or_create; rw [hl]
    rw [hu]
    exact Cache.create_spec c cat orig f (r + 1) 0

lemma Cache.get_or_create_mono {c : Cache} {r : Nat} {cat : String} {orig : Value}
    {f : Nat → Except ScrubError Value} :
    ∀ e, e ∈ c.entries → e ∈ (Cache.get_or_create c r cat orig f).2.entries := by
  intro e he
  rcases Cache.get_or_create_cases c r cat orig f with
    ⟨v, _, heq⟩ | ⟨_, ⟨err, heq⟩ | ⟨cand, j, _, _, heq⟩⟩ <;> rw [heq]
  · exact he
  · exact he
  · exact List.mem_cons_of_mem _ he

lemma Cache.get_or_create_preserve {c : Cache} {r : Nat} {cat cat2 : String}
    {orig orig2 v : Value} {f : Nat → Except ScrubError Value}
    (h : c.lookup cat2 orig2 = some v) :
    (Cache.get_or_create c r cat orig f).2.lookup cat2 orig2 = some v := by
  rcases Cache.get_or_create_cases c r cat orig f with
    ⟨w, _, heq⟩ | ⟨hl, ⟨err, heq⟩ | ⟨cand, j, _, _, heq⟩⟩ <;> rw [heq]
  · exact h
  · exact h
  · have hne : (cat2, orig2) ≠ (cat, orig) := by
      intro hk
      have h1 : cat2 = cat := congrArg Prod.fst hk
      have h2 : orig2 = orig := congrArg Prod.snd hk
      subst h1
      subst h2
      rw [hl] at h
      exact Option.noConfusion h
    rw [Cache.lookup_insert_ne hne]
    exact h

lemma Cache.get_or_create_Ok {c : Cache} {r : Nat} {cat : String} {orig : Value}
    {f : Nat → Except ScrubError Value} (hOk : Cache.Ok c) :
    Cache.Ok (Cache.get_or_create c r cat orig f).2 := by
  rcases Cache.get_or_create_cases c r cat orig f with
    ⟨v, _, heq⟩ | ⟨hl, ⟨err, heq⟩ | ⟨cand, j, _, hfresh, heq⟩⟩ <;> rw [heq]
  · exact hOk
  · exact hOk
  · constructor
    · have hkey : ((cat, orig) : String × Value) ∉ c.entries.map (fun e => e.1) := by
        intro hk
        rcases List.mem_map.mp hk with ⟨e, he, hke⟩
        exact Cache.lookup_none_forall hl e he hke
      exact List.nodup_cons.mpr ⟨hkey, hOk.1⟩
    · intro cat2
      by_cases hc : cat2 = cat
      · subst hc
        rw [Cache.issuedFor_insert_self]
        exact List.nodup_cons.mpr ⟨hfresh, hOk.2 cat2⟩
      · rw [Cache.issuedFor_insert_ne hc]
        exact hOk.2 cat2

lemma Cache.get_or_create_prov {c : Cache} {r : Nat} {cat : String} {orig : Value}
    {f : Nat → Except ScrubError Value} :
    ∀ e, e ∈ (Cache.get_or_create c r cat orig f).2.entries →
      e ∈ c.entries ∨ ∃ j, f j = .ok e.2 := by
  intro e he
  rcases Cache.get_or_create_cases c r cat orig f with
    ⟨v, _, heq⟩ | ⟨_, ⟨err, heq⟩ | ⟨cand, j, hfj, _, heq⟩⟩ <;> rw [heq] at he
  · exact Or.inl he
  · exact Or.inl he
  · rcases List.mem_cons.mp he with hh | ht
    · subst hh
      exact Or.inr ⟨j, hfj⟩
    · exact Or.inl ht

lemma Cache.get_or_create_ok_lookup {c c2 : Cache} {r : Nat} {cat : String}
    {orig v : Value} {f : Nat → Except ScrubError Value}
    (h : Cache.get_or_create c r cat orig f = (.ok v, c2)) :
    c2.lookup cat orig = some v := by
  rcases Cache.get_or_create_cases c r cat orig f with
    ⟨w, hl, heq⟩ | ⟨hl, ⟨err, heq⟩ | ⟨cand, j, _, _, heq⟩⟩ <;> rw [heq] at h
  · injection h with h1 h2
    injection h1 with h3
    subst h3
    subst h2
    exact hl
  · injection h with h1 h2
    exact Except.noConfusion h1
  · injection h with h1 h2
    injection h1 with h3
    subst h3
    subst h2
    exact Cache.lookup_insert_self _ _ _ _

lemma Cache.get_or_create_exhausts {c : Cache} {r : Nat} {cat : String} {orig : Value}
    {f : Nat → Except ScrubError Value} (hl : c.lookup cat orig = none)
    (hcol : ∀ j, j < r + 1 → ∃ v, f j = .ok v ∧ v ∈ c.issuedFor cat) :
    Cache.get_or_create c r cat orig f = (.error .synthesisExhaustedError, c) := by
  have hu : Cache.get_or_create c r cat orig f = Cache.create c cat orig f 0 (r + 1) := by
    unfold Cache.get_or_create
    rw [hl]
  rw [hu]
  refine Cache.create_exhausted c cat orig f (r + 1) 0 (fun j hj => ?_)
  simpa using hcol j hj

lemma issued_inj_aux :
    ∀ (l : List ((String × Value) × Value)) (cat : String),
      (l.filterMap (fun e => if e.1.1 = cat then some e.2 else none)).Nodup →
      ∀ e1, e1 ∈ l → ∀ e2, e2 ∈ l → e1.1.1 = cat → e2.1.1 = cat → e1 ≠ e2 →
        e1.2 ≠ e2.2 := by
  intro l
  induction l with
  | nil => intro cat _ e1 he1; exact absurd he1 (List.not_mem_nil e1)
  | cons a l ih =>
    intro cat hnd e1 he1 e2 he2 h1 h2 hne heq
    have hmem : ∀ e, e ∈ l → e.1.1 = cat →
        e.2 ∈ l.filterMap (fun e => if e.1.1 = cat then some e.2 else none) := by
      intro e he hc
      exact List.mem_filterMap.mpr ⟨e, he, by simp [hc]⟩
    rcases List.mem_cons.mp he1 with h1a | h1l <;> rcases List.mem_cons.mp he2 with h2a | h2l
    · exact hne (h1a.trans h2a.symm)
    · subst h1a
      rw [List.filterMap_cons] at hnd
      rw [if_pos h1] at hnd
      have := (List.nodup_cons.mp hnd).1
      exact this (heq ▸ hmem e2 h2l h2)
    · subst h2a
      rw [List.filterMap_cons] at hnd
      rw [if_pos h2] at hnd
      have := (List.nodup_cons.mp hnd).1
      exact this (heq ▸ hmem e1 h1l h1)
    · have hnd2 : (l.filterMap (fun e => if e.1.1 = cat then some e.2 else none)).Nodup := by
        rw [List.filterMap_cons] at hnd
        by_cases hc : a.1.1 = cat
        · rw [if_pos hc] at hnd
          exact (List.nodup_cons.mp hnd).2
        · rwa [if_neg hc] at hnd
      exact ih cat hnd2 e1 h1l e2 h2l h1 h2 hne heq

lemma Cache.Ok_lookup_inj {c : Cache} (hOk : Cache.Ok c) {cat : String}
    {o1 o2 v1 v2 : Value} (h1 : c.lookup cat o1 = some v1)
    (h2 : c.lookup cat o2 = some v2) (hne : o1 ≠ o2) : v1 ≠ v2 := by
  obtain ⟨e1, he1, hk1, hv1⟩ := Cache.lookup_some_mem h1
  obtain ⟨e2, he2, hk2, hv2⟩ := Cache.lookup_some_mem h2
  have hne12 : e1 ≠ e2 := by
    intro h
    rw [h, hk2] at hk1
    exact hne (congrArg Prod.snd hk1).symm
  have := issued_inj_aux c.entries cat (hOk.2 cat) e1 he1 e2 he2
    (by rw [hk1]) (by rw [hk2]) hne12
  intro hv
  exact this (hv1.trans (hv.trans hv2.symm))

lemma emptyCache_Ok : Cache.Ok emptyCache := by
  constructor
  · exact List.nodup_nil
  · intro cat
    exact List.nodup_nil

lemma applyOps_preserve {c : Cache} {cat : String} {orig v : Value}
    (ops : List CacheOp) (h : c.lookup cat orig = some v) :
    (applyOps c ops).lookup cat orig = some v := by
  induction ops generalizing c with
  | nil => exact h
  | cons op ops ih =>
    have : applyOps c (op :: ops) = applyOps (applyOp c op) ops := rfl
    rw [this]
    exact ih (Cache.get_or_create_preserve h)

lemma applyOps_Ok {c : Cache} (ops : List CacheOp) (h : Cache.Ok c) :
    Cache.Ok (applyOps c ops) := by
  induction ops generalizing c with
  | nil => exact h
  | cons op ops ih =>
    have : applyOps c (op :: ops) = applyOps (applyOp c op) ops := rfl
    rw [this]
    exact ih (Cache.get_or_create_Ok h)

lemma cacheEvolves_refl (reg : List (String × Strategy)) (c : Cache) :
    CacheEvolves reg c c :=
  ⟨fun _ he => he, fun _ _ _ h => h, fun h => h, fun _ he => Or.inl he⟩

lemma cacheEvolves_trans {reg : List (String × Strategy)} {a b c : Cache}
    (h1 : CacheEvolves reg a b) (h2 : CacheEvolves reg b c) : CacheEvolves reg a c := by
  refine ⟨fun e he => h2.1 e (h1.1 e he), fun cat o v h => h2.2.1 cat o v (h1.2.1 cat o v h),
    fun h => h2.2.2.1 (h1.2.2.1 h), fun e he => ?_⟩
  rcases h2.2.2.2 e he with hb | hgen
  · exact h1.2.2.2 e hb
  · exact Or.inr hgen

lemma synthesize_ok {strat : Strategy} {orig : Value} {j : Nat} {w : Value}
    (h : synthesize strat orig j = .ok w) : w = strat.gen orig j := by
  unfold synthesize at h
  by_cases hc : (strat.gen orig j).primType = strat.outType
  · rw [if_pos hc] at h
    injection h with h1
    exact h1.symm
  · rw [if_neg hc] at h
    exact Except.noConfusion h

lemma get_or_create_evolves {reg : List (String × Strategy)} {cat : String}
    {strat : Strategy} (hres : resolve reg cat = some strat) (c : Cache) (r : Nat)
    (orig fv : Value) :
    CacheEvolves reg c (Cache.get_or_create c r cat orig (synthesize strat fv)).2 := by
  refine ⟨Cache.get_or_create_mono, fun cat2 o v h => Cache.get_or_create_preserve h,
    fun h => Cache.get_or_create_Ok h, fun e he => ?_⟩
  rcases Cache.get_or_create_prov e he with hc | ⟨j, hj⟩
  · exact Or.inl hc
  · exact Or.inr ⟨cat, strat, fv, j, hres, (synthesize_ok hj).symm ▸ rfl⟩

lemma traverseElems_evolves {reg : List (String × Strategy)}
    {f : Cache → Nat → (Except ScrubError Node) × Cache}
    (hf : ∀ cache e, CacheEvolves reg cache (f cache e).2) :
    ∀ (es : List Nat) (cache : Cache), CacheEvolves reg cache (traverseElems f cache es).2 := by
  intro es
  induction es with
  | nil => intro cache; exact cacheEvolves_refl reg cache
  | cons e es ih =>
    intro cache
    cases hfe : f cache e with
    | mk r c1 =>
      have h1 : CacheEvolves reg cache c1 := by
        have := hf cache e
        rwa [hfe] at this
      cases r with
      | error err =>
        have hres : (traverseElems f cache (e :: es)).2 = c1 := by
          simp [traverseElems, hfe]
        rw [hres]
        exact h1
      | ok n =>
        cases hrest : traverseElems f c1 es with
        | mk r2 c2 =>
          have h2 : CacheEvolves reg c1 c2 := by
            have := ih c1
            rwa [hrest] at this
          have hres : (traverseElems f cache (e :: es)).2 = c2 := by
            cases r2 with
            | error err2 => simp [traverseElems, hfe, hrest]
            | ok ns => simp [traverseElems, hfe, hrest]
          rw [hres]
          exact cacheEvolves_trans h1 h2

lemma traverseMapEntries_evolves {reg : List (String × Strategy)}
    {f : Cache → Nat → (Except ScrubError Node) × Cache}
    (hf : ∀ cache e, CacheEvolves reg cache (f cache e).2) :
    ∀ (kvs : List (String × Nat)) (cache : Cache),
      CacheEvolves reg cache (traverseMapEntries f cache kvs).2 := by
  intro kvs
  induction kvs with
  | nil => intro cache; exact cacheEvolves_refl reg cache
  | cons kv kvs ih =>
    intro cache
    cases hfe : f cache kv.2 with
    | mk r c1 =>
      have h1 : CacheEvolves reg cache c1 := by
        have := hf cache kv.2
        rwa [hfe] at this
      cases r with
      | error err =>
        have hres : (traverseMapEntries f cache (kv :: kvs)).2 = c1 := by
          simp [traverseMapEntries, hfe]
        rw [hres]
        exact h1
      | ok n =>
        cases hrest : traverseMapEntries f c1 kvs with
        | mk r2 c2 =>
          have h2 : CacheEvolves reg c1 c2 := by
            have := ih c1
            rwa [hrest] at this
          have hres : (traverseMapEntries f cache (kv :: kvs)).2 = c2 := by
            cases r2 with
            | error err2 => simp [traverseMapEntries, hfe, hrest]
            | ok ns => simp [traverseMapEntries, hfe, hrest]
          rw [hres]
          exact cacheEvolves_trans h1 h2

lemma scrubField_evolves (cfg : Config) (store : List (Nat × NodeData))
    {reg : List (String × Strategy)} {f : Cache → Nat → (Except ScrubError Node) × Cache}
    (hf : ∀ cache e, CacheEvolves reg cache (f cache e).2) (cache : Cache)
    (fd : FieldDesc) (cid : Nat) :
    CacheEvolves reg cache (scrubField cfg reg store f cache fd cid).2 := by
  cases hcl : classify cfg fd with
  | none =>
    have hres : scrubField cfg reg store f cache fd cid = f cache cid := by
      simp [scrubField, hcl]
    rw [hres]
    exact hf cache cid
  | some cat =>
    cases hre : resolve reg cat with
    | none =>
      have hres : (scrubField cfg reg store f cache fd cid).2 = cache := by
        simp [scrubField, hcl, hre]
      rw [hres]
      exact cacheEvolves_refl reg cache
    | some strat =>
      cases hln : lookupNode store cid with
      | none =>
        have hres : (scrubField cfg reg store f cache fd cid).2 = cache := by
          simp [scrubField, hcl, hre, hln]
        rw [hres]
        exact cacheEvolves_refl reg cache
      | some nd =>
        cases nd with
        | scalar v =>
          by_cases ht : v.primType = strat.outType
          · cases hg : Cache.get_or_create cache cfg.retryLimit cat v (synthesize strat v) with
            | mk r c1 =>
              have hev : CacheEvolves reg cache c1 := by
                have := get_or_create_evolves hre cache cfg.retryLimit v v
                rwa [hg] at this
              have hres : (scrubField cfg reg store f cache fd cid).2 = c1 := by
                cases r with
                | ok w => simp [scrubField, hcl, hre, hln, ht, hg]
                | error e => simp [scrubField, hcl, hre, hln, ht, hg]
              rw [hres]
              exact hev
          · have hres : (scrubField cfg reg store f cache fd cid).2 = cache := by
              simp [scrubField, hcl, hre, hln, ht]
            rw [hres]
            exact cacheEvolves_refl reg cache
        | seq es =>
          have hres : (scrubField cfg reg store f cache fd cid).2 = cache := by
            simp [scrubField, hcl, hre, hln]
          rw [hres]
          exact cacheEvolves_refl reg cache
        | map kvs =>
          have hres : (scrubField cfg reg store f cache fd cid).2 = cache := by
            simp [scrubField, hcl, hre, hln]
          rw [hres]
          exact cacheEvolves_refl reg cache
        | record fs =>
          have hres : (scrubField cfg reg store f cache fd cid).2 = cache := by
            simp [scrubField, hcl, hre, hln]
          rw [hres]
          exact cacheEvolves_refl reg cache

lemma traverseFields_evolves (cfg : Config) (store : List (Nat × NodeData))
    {reg : List (String × Strategy)} {f : Cache → Nat → (Except ScrubError Node) × Cache}
    (hf : ∀ cache e, CacheEvolves reg cache (f cache e).2) :
    ∀ (fs : List (FieldDesc × Nat)) (cache : Cache),
      CacheEvolves reg cache (traverseFields cfg reg store f cache fs).2 := by
  intro fs
  induction fs with
  | nil => intro cache; exact cacheEvolves_refl reg cache
  | cons fc fcs ih =>
    intro cache
    cases hfe : scrubField cfg reg store f cache fc.1 fc.2 with
    | mk r c1 =>
      have h1 : CacheEvolves reg cache c1 := by
        have := scrubField_evolves cfg store hf cache fc.1 fc.2
        rwa [hfe] at this
      cases r with
      | error err =>
        have hres : (traverseFields cfg reg store f cache (fc :: fcs)).2 = c1 := by
          simp [traverseFields, hfe]
        rw [hres]
        exact h1
      | ok n =>
        cases hrest : traverseFields cfg reg store f c1 fcs with
        | mk r2 c2 =>
          have h2 : CacheEvolves reg c1 c2 := by
            have := ih c1
            rwa [hrest] at this
          have hres : (traverseFields cfg reg store f cache (fc :: fcs)).2 = c2 := by
            cases r2 with
            | error err2 => simp [traverseFields, hfe, hrest]
            | ok ns => simp [traverseFields, hfe, hrest]
          rw [hres]
          exact cacheEvolves_trans h1 h2

lemma traverseNode_evolves (cfg : Config) (reg : List (String × Strategy))
    (store : List (Nat × NodeData)) :
    ∀ (d : Nat) (path : List Nat) (cache : Cache) (id : Nat),
      CacheEvolves reg cache (traverseNode cfg reg store d path cache id).2 := by
  intro d
  induction d with
  | zero =>
    intro path cache id
    have hres : (traverseNode cfg reg store 0 path cache id).2 = cache := by
      by_cases hp : id ∈ path <;> simp [traverseNode, hp]
    rw [hres]
    exact cacheEvolves_refl reg cache
  | succ d ih =>
    intro path cache id
    by_cases hp : id ∈ path
    · have hres : (traverseNode cfg reg store (d + 1) path cache id).2 = cache := by
        simp [traverseNode, hp]
      rw [hres]
      exact cacheEvolves_refl reg cache
    · cases hln : lookupNode store id with
      | none =>
        have hres : (traverseNode cfg reg store (d + 1) path cache id).2 = cache := by
          simp [traverseNode, hp, hln]
        rw [hres]
        exact cacheEvolves_refl reg cache
      | some nd =>
        cases nd with
        | scalar v =>
          have hres : (traverseNode cfg reg store (d + 1) path cache id).2 = cache := by
            simp [traverseNode, hp, hln]
          rw [hres]
          exact cacheEvolves_refl reg cache
        | seq es =>
          cases ht : traverseElems (traverseNode cfg reg store d (id :: path)) cache es with
          | mk r c2 =>
            have h1 : CacheEvolves reg cache c2 := by
              have := traverseElems_evolves (fun cache2 e => ih (id :: path) cache2 e) es cache
              rwa [ht] at this
            have hres : (traverseNode cfg reg store (d + 1) path cache id).2 = c2 := by
              cases r with
              | error err => simp [traverseNode, hp, hln, ht]
              | ok ns => simp [traverseNode, hp, hln, ht]
            rw [hres]
            exact h1
        | map kvs =>
          cases ht : traverseMapEntries (traverseNode cfg reg store d (id :: path)) cache kvs with
          | mk r c2 =>
            have h1 : CacheEvolves reg cache c2 := by
              have := traverseMapEntries_evolves (fun cache2 e => ih (id :: path) cache2 e) kvs cache
              rwa [ht] at this
            have hres : (traverseNode cfg reg store (d + 1) path cache id).2 = c2 := by
              cases r with
              | error err => simp [traverseNode, hp, hln, ht]
              | ok ns => simp [traverseNode, hp, hln, ht]
            rw [hres]
            exact h1
        | record fs =>
          cases ht : traverseFields cfg reg store (traverseNode cfg reg store d (id :: path)) cache fs with
          | mk r c2 =>
            have h1 : CacheEvolves reg cache c2 := by
              have := traverseFields_evolves cfg store (fun cache2 e => ih (id :: path) cache2 e) fs cache
              rwa [ht] at this
            have hres : (traverseNode cfg reg store (d + 1) path cache id).2 = c2 := by
              cases r with
              | error err => simp [traverseNode, hp, hln, ht]
              | ok ns => simp [traverseNode, hp, hln, ht]
            rw [hres]
            exact h1

lemma scrub_evolves (cfg : Config) (reg : List (String × Strategy)) (g : Graph)
    (cache : Cache) : CacheEvolves reg cache (scrub cfg reg g cache).2 :=
  traverseNode_evolves cfg reg g.nodes cfg.maxDepth [] cache g.root

lemma scrubField_ok_cases {cfg : Config} {reg : List (String × Strategy)}
    {store : List (Nat × NodeData)} {f : Cache → Nat → (Except ScrubError Node) × Cache}
    {cache : Cache} {fd : FieldDesc} {cid : Nat} {n : Node} {c2 : Cache}
    (h : scrubField cfg reg store f cache fd cid = (.ok n, c2)) :
    (classify cfg fd = none ∧ f cache cid = (.ok n, c2)) ∨
    (∃ cat strat v w, classify cfg fd = some cat ∧ resolve reg cat = some strat ∧
      lookupNode store cid = some (.scalar v) ∧ v.primType = strat.outType ∧
      n = .scalar w ∧
      Cache.get_or_create cache cfg.retryLimit cat v (synthesize strat v) = (.ok w, c2)) := by
  cases hcl : classify cfg fd with
  | none =>
    rw [show scrubField cfg reg store f cache fd cid = f cache cid by
      simp [scrubField, hcl]] at h
    exact Or.inl ⟨rfl, h⟩
  | some cat =>
    cases hre : resolve reg cat with
    | none => simp [scrubField, hcl, hre] at h
    | some strat =>
      cases hln : lookupNode store cid with
      | none => simp [scrubField, hcl, hre, hln] at h
      | some nd =>
        cases nd with
        | scalar v =>
          by_cases ht : v.primType = strat.outType
          · cases hg : Cache.get_or_create cache cfg.retryLimit cat v (synthesize strat v) with
            | mk r c1 =>
              cases r with
              | error e => simp [scrubField, hcl, hre, hln, ht, hg] at h
              | ok w =>
                have hh := h
                simp [scrubField, hcl, hre, hln, ht, hg] at hh
                obtain ⟨h1, h2⟩ := hh
                subst h1
                subst h2
                exact Or.inr ⟨cat, strat, v, w, rfl, hre, rfl, ht, rfl, hg⟩
          · simp [scrubField, hcl, hre, hln, ht] at h
        | seq es => simp [scrubField, hcl, hre, hln] at h
        | map kvs => simp [scrubField, hcl, hre, hln] at h
        | record fs => simp [scrubField, hcl, hre, hln] at h

lemma traverseElems_ok_pointwise {f : Cache → Nat → (Except ScrubError Node) × Cache}
    {Q : Nat → Node → Prop} (hf : ∀ cache e n c2, f cache e = (.ok n, c2) → Q e n) :
    ∀ (es : List Nat) (cache : Cache) (ns : List Node) (c2 : Cache),
      traverseElems f cache es = (.ok ns, c2) → List.Forall₂ Q es ns := by
  intro es
  induction es with
  | nil =>
    intro cache ns c2 h
    simp [traverseElems] at h
    rw [h.1]
    exact List.Forall₂.nil
  | cons e es ih =>
    intro cache ns c2 h
    cases hfe : f cache e with
    | mk r c1 =>
      cases r with
      | error err => simp [traverseElems, hfe] at h
      | ok n =>
        cases hrest : traverseElems f c1 es with
        | mk r2 c3 =>
          cases r2 with
          | error err2 => simp [traverseElems, hfe, hrest] at h
          | ok ns2 =>
            simp [traverseElems, hfe, hrest] at h
            obtain ⟨h1, h2⟩ := h
            subst h1
            exact List.Forall₂.cons (hf cache e n c1 hfe) (ih c1 ns2 c3 hrest)

lemma traverseMapEntries_ok_pointwise {f : Cache → Nat → (Except ScrubError Node) × Cache}
    {Q : Nat → Node → Prop} (hf : ∀ cache e n c2, f cache e = (.ok n, c2) → Q e n) :
    ∀ (kvs : List (String × Nat)) (cache : Cache) (kns : List (String × Node)) (c2 : Cache),
      traverseMapEntries f cache kvs = (.ok kns, c2) →
      List.Forall₂ (fun (kv : String × Nat) (kn : String × Node) =>
        kv.1 = kn.1 ∧ Q kv.2 kn.2) kvs kns := by
  intro kvs
  induction kvs with
  | nil =>
    intro cache kns c2 h
    simp [traverseMapEntries] at h
    rw [h.1]
    exact List.Forall₂.nil
  | cons kv kvs ih =>
    intro cache kns c2 h
    cases hfe : f cache kv.2 with
    | mk r c1 =>
      cases r with
      | error err => simp [traverseMapEntries, hfe] at h
      | ok n =>
        cases hrest : traverseMapEntries f c1 kvs with
        | mk r2 c3 =>
          cases r2 with
          | error err2 => simp [traverseMapEntries, hfe, hrest] at h
          | ok kns2 =>
            simp [traverseMapEntries, hfe, hrest] at h
            obtain ⟨h1, h2⟩ := h
            subst h1
            exact List.Forall₂.cons ⟨rfl, hf cache kv.2 n c1 hfe⟩ (ih c1 kns2 c3 hrest)

lemma traverseFields_ok_pointwise {cfg : Config} {reg : List (String × Strategy)}
    {store : List (Nat × NodeData)} {f : Cache → Nat → (Except ScrubError Node) × Cache}
    {Q : Nat → Node → Prop} (hf : ∀ cache e n c2, f cache e = (.ok n, c2) → Q e n) :
    ∀ (fs : List (FieldDesc × Nat)) (cache : Cache) (gs : List (FieldDesc × Node)) (c2 : Cache),
      traverseFields cfg reg store f cache fs = (.ok gs, c2) →
      List.Forall₂ (fun (fc : FieldDesc × Nat) (gn : FieldDesc × Node) =>
        fc.1 = gn.1 ∧
        ((classify cfg fc.1 = none ∧ Q fc.2 gn.2) ∨
          (∃ cat v w, classify cfg fc.1 = some cat ∧
            lookupNode store fc.2 = some (.scalar v) ∧ gn.2 = .scalar w))) fs gs := by
  intro fs
  induction fs with
  | nil =>
    intro cache gs c2 h
    simp [traverseFields] at h
    rw [h.1]
    exact List.Forall₂.nil
  | cons fc fcs ih =>
    intro cache gs c2 h
    cases hfe : scrubField cfg reg store f cache fc.1 fc.2 with
    | mk r c1 =>
      cases r with
      | error err => simp [traverseFields, hfe] at h
      | ok n =>
        cases hrest : traverseFields cfg reg store f c1 fcs with
        | mk r2 c3 =>
          cases r2 with
          | error err2 => simp [traverseFields, hfe, hrest] at h
          | ok gs2 =>
            simp [traverseFields, hfe, hrest] at h
            obtain ⟨h1, h2⟩ := h
            subst h1
            refine List.Forall₂.cons ⟨rfl, ?_⟩ (ih c1 gs2 c3 hrest)
            rcases scrubField_ok_cases hfe with ⟨hcl, hrec⟩ | ⟨cat, strat, v, w, hcl, _, hln, _, hn, _⟩
            · exact Or.inl ⟨hcl, hf cache fc.2 n c1 hrec⟩
            · exact Or.inr ⟨cat, v, w, hcl, hln, hn⟩

lemma forall₂_scrubbedElems {cfg : Config} {store : List (Nat × NodeData)} :
    ∀ {es : List Nat} {ns : List Node}, List.Forall₂ (Scrubbed cfg store) es ns →
      ScrubbedElems cfg store es ns := by
  intro es ns h
  induction h with
  | nil => exact ScrubbedElems.nil
  | cons h1 h2 ih => exact ScrubbedElems.cons _ _ _ _ h1 ih

lemma forall₂_scrubbedEntries {cfg : Config} {store : List (Nat × NodeData)} :
    ∀ {kvs : List (String × Nat)} {kns : List (String × Node)},
      List.Forall₂ (fun (kv : String × Nat) (kn : String × Node) =>
        kv.1 = kn.1 ∧ Scrubbed cfg store kv.2 kn.2) kvs kns →
      ScrubbedEntries cfg store kvs kns := by
  intro kvs kns h
  induction h with
  | nil => exact ScrubbedEntries.nil
  | @cons a b l1 l2 h1 h2 ih =>
    cases a with
    | mk k e =>
      cases b with
      | mk k2 n =>
        obtain ⟨hk, hs⟩ := h1
        cases hk
        exact ScrubbedEntries.cons k e n l1 l2 hs ih

lemma forall₂_scrubbedFields {cfg : Config} {store : List (Nat × NodeData)} :
    ∀ {fs : List (FieldDesc × Nat)} {gs : List (FieldDesc × Node)},
      List.Forall₂ (fun (fc : FieldDesc × Nat) (gn : FieldDesc × Node) =>
        fc.1 = gn.1 ∧
        ((classify cfg fc.1 = none ∧ Scrubbed cfg store fc.2 gn.2) ∨
          (∃ cat v w, classify cfg fc.1 = some cat ∧
            lookupNode store fc.2 = some (.scalar v) ∧ gn.2 = .scalar w))) fs gs →
      ScrubbedFields cfg store fs gs := by
  intro fs gs h
  induction h with
  | nil => exact ScrubbedFields.nil
  | @cons a b l1 l2 h1 h2 ih =>
    cases a with
    | mk fd cid =>
      cases b with
      | mk fd2 gnode =>
        obtain ⟨hfd, hcase⟩ := h1
        cases hfd
        rcases hcase with ⟨hcl, hs⟩ | ⟨cat, v, w, hcl, hln, hw⟩
        · exact ScrubbedFields.consPlain fd cid gnode l1 l2 hcl hs ih
        · have hw2 : gnode = Node.scalar w := hw
          subst hw2
          exact ScrubbedFields.consClassified fd cid cat v w l1 l2 hcl hln ih

lemma traverseNode_ok_scrubbed (cfg : Config) (reg : List (String × Strategy))
    (store : List (Nat × NodeData)) :
    ∀ (d : Nat) (path : List Nat) (cache : Cache) (id : Nat) (out : Node) (c2 : Cache),
      traverseNode cfg reg store d path cache id = (.ok out, c2) →
      Scrubbed cfg store id out := by
  intro d
  induction d with
  | zero =>
    intro path cache id out c2 h
    by_cases hp : id ∈ path <;> simp [traverseNode, hp] at h
  | succ d ih =>
    intro path cache id out c2 h
    by_cases hp : id ∈ path
    · simp [traverseNode, hp] at h
    · cases hln : lookupNode store id with
      | none => simp [traverseNode, hp, hln] at h
      | some nd =>
        cases nd with
        | scalar v =>
          simp [traverseNode, hp, hln] at h
          obtain ⟨h1, h2⟩ := h
          subst h1
          exact Scrubbed.scalar id v hln
        | seq es =>
          cases ht : traverseElems (traverseNode cfg reg store d (id :: path)) cache es with
          | mk r c3 =>
            cases r with
            | error err => simp [traverseNode, hp, hln, ht] at h
            | ok ns =>
              simp [traverseNode, hp, hln, ht] at h
              obtain ⟨h1, h2⟩ := h
              subst h1
              refine Scrubbed.seqNode id es ns hln (forall₂_scrubbedElems ?_)
              exact traverseElems_ok_pointwise
                (fun cache2 e n c4 hh => ih (id :: path) cache2 e n c4 hh) es cache ns c3 ht
        | map kvs =>
          cases ht : traverseMapEntries (traverseNode cfg reg store d (id :: path)) cache kvs with
          | mk r c3 =>
            cases r with
            | error err => simp [traverseNode, hp, hln, ht] at h
            | ok kns =>
              simp [traverseNode, hp, hln, ht] at h
              obtain ⟨h1, h2⟩ := h
              subst h1
              refine Scrubbed.mapNode id kvs kns hln (forall₂_scrubbedEntries ?_)
              exact traverseMapEntries_ok_pointwise
                (fun cache2 e n c4 hh => ih (id :: path) cache2 e n c4 hh) kvs cache kns c3 ht
        | record fs =>
          cases ht : traverseFields cfg reg store (traverseNode cfg reg store d (id :: path)) cache fs with
          | mk r c3 =>
            cases r with
            | error err => simp [traverseNode, hp, hln, ht] at h
            | ok gs =>
              simp [traverseNode, hp, hln, ht] at h
              obtain ⟨h1, h2⟩ := h
              subst h1
              refine Scrubbed.recordNode id fs gs hln (forall₂_scrubbedFields ?_)
              exact traverseFields_ok_pointwise
                (fun cache2 e n c4 hh => ih (id :: path) cache2 e n c4 hh) fs cache gs c3 ht

lemma forall₂_mem_left {α β : Type} {R : α → β → Prop} :
    ∀ {l1 : List α} {l2 : List β}, List.Forall₂ R l1 l2 →
      ∀ {a : α}, a ∈ l1 → ∃ b, b ∈ l2 ∧ R a b := by
  intro l1 l2 h
  induction h with
  | nil => intro a ha; exact absurd ha (List.not_mem_nil a)
  | @cons x y l3 l4 hxy h2 ih =>
    intro a ha
    rcases List.mem_cons.mp ha with heq | ha2
    · subst heq
      exact ⟨y, List.mem_cons_self y l4, hxy⟩
    · obtain ⟨b, hb, hr⟩ := ih ha2
      exact ⟨b, List.mem_cons_of_mem y hb, hr⟩

lemma chain_trans {store : List (Nat × NodeData)} {n a b : Nat}
    (h1 : Chain store n a b) :
    ∀ {m c : Nat}, Chain store m b c → Chain store (n + m) a c := by
  induction h1 with
  | nil a => intro m c h2; simpa using h2
  | cons a nd b2 k c2 hln hb hch ih =>
    intro m c h2
    have hrec := ih h2
    have heq : k + 1 + m = (k + m) + 1 := by omega
    rw [heq]
    exact Chain.cons a nd b2 (k + m) c hln hb hrec

lemma traverseNode_ok_chain_bound (cfg : Config) (reg : List (String × Strategy))
    (store : List (Nat × NodeData)) :
    ∀ (d : Nat) (path : List Nat) (cache : Cache) (id : Nat) (out : Node) (c2 : Cache),
      traverseNode cfg reg store d path cache id = (.ok out, c2) →
      ∀ (n b : Nat), Chain store n id b → n ≤ d := by
  intro d
  induction d with
  | zero =>
    intro path cache id out c2 h
    by_cases hp : id ∈ path <;> simp [traverseNode, hp] at h
  | succ d ih =>
    intro path cache id out c2 h n b hch
    cases hch with
    | nil => omega
    | cons _ nd0 b2 k _ hln2 hb hch2 =>
      by_cases hp : id ∈ path
      · simp [traverseNode, hp] at h
      · cases hln : lookupNode store id with
        | none =>
          rw [hln] at hln2
          exact Option.noConfusion hln2
        | some nd =>
          rw [hln] at hln2
          injection hln2 with hnd
          subst hnd
          cases nd with
          | scalar v =>
            simp [childIds] at hb
          | seq es =>
            simp [childIds] at hb
            cases ht : traverseElems (traverseNode cfg reg store d (id :: path)) cache es with
            | mk r c3 =>
              cases r with
              | error err => simp [traverseNode, hp, hln, ht] at h
              | ok ns =>
                have hfa := traverseElems_ok_pointwise
                  (Q := fun e _ => ∀ nn bb, Chain store nn e bb → nn ≤ d)
                  (fun cache2 e n2 c4 hh nn bb hcc => ih (id :: path) cache2 e n2 c4 hh nn bb hcc)
                  es cache ns c3 ht
                obtain ⟨nb, _, hq⟩ := forall₂_mem_left hfa hb
                have := hq k b hch2
                omega
          | map kvs =>
            have hb2 : b2 ∈ kvs.map (fun kv => kv.2) := hb
            obtain ⟨kv, hkv, hv2⟩ := List.mem_map.mp hb2
            cases ht : traverseMapEntries (traverseNode cfg reg store d (id :: path)) cache kvs with
            | mk r c3 =>
              cases r with
              | error err => simp [traverseNode, hp, hln, ht] at h
              | ok kns =>
                have hfa := traverseMapEntries_ok_pointwise
                  (Q := fun e _ => ∀ nn bb, Chain store nn e bb → nn ≤ d)
                  (fun cache2 e n2 c4 hh nn bb hcc => ih (id :: path) cache2 e n2 c4 hh nn bb hcc)
                  kvs cache kns c3 ht
                obtain ⟨kn, _, ⟨_, hq⟩⟩ := forall₂_mem_left hfa hkv
                rw [hv2] at hq
                have := hq k b hch2
                omega
          | record fs =>
            have hb2 : b2 ∈ fs.map (fun f => f.2) := hb
            obtain ⟨fc, hfc, hcid⟩ := List.mem_map.mp hb2
            cases ht : traverseFields cfg reg store (traverseNode cfg reg store d (id :: path)) cache fs with
            | mk r c3 =>
              cases r with
              | error err => simp [traverseNode, hp, hln, ht] at h
              | ok gs =>
                have hfa := traverseFields_ok_pointwise
                  (Q := fun e _ => ∀ nn bb, Chain store nn e bb → nn ≤ d)
                  (fun cache2 e n2 c4 hh nn bb hcc => ih (id :: path) cache2 e n2 c4 hh nn bb hcc)
                  fs cache gs c3 ht
                obtain ⟨gn, _, ⟨_, hcase⟩⟩ := forall₂_mem_left hfa hfc
                rcases hcase with ⟨_, hq⟩ | ⟨cat, v, w, _, hlnc, _⟩
                · rw [hcid] at hq
                  have := hq k b hch2
                  omega
                · rw [hcid] at hlnc
                  cases hch2 with
                  | nil => omega
                  | cons _ nd3 b3 k3 _ hln3 hb3 _ =>
                    rw [hlnc] at hln3
                    injection hln3 with hnd3
                    subst hnd3
                    simp [childIds] at hb3

lemma traverseElems_ok_leaves {reg : List (String × Strategy)}
    {f : Cache → Nat → (Except ScrubError Node) × Cache} {P : Nat → Value → Prop}
    (hfev : ∀ cache e, CacheEvolves reg cache (f cache e).2)
    (hf : ∀ cache e n c2, f cache e = (.ok n, c2) →
      ∀ v, OutLeaf n v → P e v ∨ ∃ ee, ee ∈ c2.entries ∧ ee.2 = v) :
    ∀ (es : List Nat) (cache : Cache) (ns : List Node) (c2 : Cache),
      traverseElems f cache es = (.ok ns, c2) →
      ∀ v n, n ∈ ns → OutLeaf n v →
        (∃ e, e ∈ es ∧ P e v) ∨ ∃ ee, ee ∈ c2.entries ∧ ee.2 = v := by
  intro es
  induction es with
  | nil =>
    intro cache ns c2 h v n hn hv
    simp [traverseElems] at h
    rw [h.1] at hn
    exact absurd hn (List.not_mem_nil n)
  | cons e es ih =>
    intro cache ns c2 h v n hn hv
    cases hfe : f cache e with
    | mk r c1 =>
      cases r with
      | error err => simp [traverseElems, hfe] at h
      | ok n1 =>
        cases hrest : traverseElems f c1 es with
        | mk r2 c3 =>
          cases r2 with
          | error err2 => simp [traverseElems, hfe, hrest] at h
          | ok ns2 =>
            simp [traverseElems, hfe, hrest] at h
            obtain ⟨h1, h2⟩ := h
            subst h1
            subst h2
            rcases List.mem_cons.mp hn with heq | hn2
            · subst heq
              rcases hf cache e n c1 hfe v hv with hp | ⟨ee, hee, hv2⟩
              · exact Or.inl ⟨e, List.mem_cons_self e es, hp⟩
              · refine Or.inr ⟨ee, ?_, hv2⟩
                have := (traverseElems_evolves hfev es c1).1 ee hee
                rwa [hrest] at this
            · rcases ih c1 ns2 c3 hrest v n hn2 hv with ⟨e2, he2, hp⟩ | hee
              · exact Or.inl ⟨e2, List.mem_cons_of_mem e he2, hp⟩
              · exact Or.inr hee

lemma traverseMapEntries_ok_leaves {reg : List (String × Strategy)}
    {f : Cache → Nat → (Except ScrubError Node) × Cache} {P : Nat → Value → Prop}
    (hfev : ∀ cache e, CacheEvolves reg cache (f cache e).2)
    (hf : ∀ cache e n c2, f cache e = (.ok n, c2) →
      ∀ v, OutLeaf n v → P e v ∨ ∃ ee, ee ∈ c2.entries ∧ ee.2 = v) :
    ∀ (kvs : List (String × Nat)) (cache : Cache) (kns : List (String × Node)) (c2 : Cache),
      traverseMapEntries f cache kvs = (.ok kns, c2) →
      ∀ v kn, kn ∈ kns → OutLeaf kn.2 v →
        (∃ kv, kv ∈ kvs ∧ P kv.2 v) ∨ ∃ ee, ee ∈ c2.entries ∧ ee.2 = v := by
  intro kvs
  induction kvs with
  | nil =>
    intro cache kns c2 h v kn hn hv
    simp [traverseMapEntries] at h
    rw [h.1] at hn
    exact absurd hn (List.not_mem_nil kn)
  | cons kv kvs ih =>
    intro cache kns c2 h v kn hn hv
    cases hfe : f cache kv.2 with
    | mk r c1 =>
      cases r with
      | error err => simp [traverseMapEntries, hfe] at h
      | ok n1 =>
        cases hrest : traverseMapEntries f c1 kvs with
        | mk r2 c3 =>
          cases r2 with
          | error err2 => simp [traverseMapEntries, hfe, hrest] at h
          | ok kns2 =>
            simp [traverseMapEntries, hfe, hrest] at h
            obtain ⟨h1, h2⟩ := h
            subst h1
            subst h2
            rcases List.mem_cons.mp hn with heq | hn2
            · subst heq
              rcases hf cache kv.2 n1 c1 hfe v hv with hp | ⟨ee, hee, hv2⟩
              · exact Or.inl ⟨kv, List.mem_cons_self kv kvs, hp⟩
              · refine Or.inr ⟨ee, ?_, hv2⟩
                have := (traverseMapEntries_evolves hfev kvs c1).1 ee hee
                rwa [hrest] at this
            · rcases ih c1 kns2 c3 hrest v kn hn2 hv with ⟨kv2, hkv2, hp⟩ | hee
              · exact Or.inl ⟨kv2, List.mem_cons_of_mem kv hkv2, hp⟩
              · exact Or.inr hee

lemma traverseFields_ok_leaves {cfg : Config} {reg : List (String × Strategy)}
    {store : List (Nat × NodeData)} {f : Cache → Nat → (Except ScrubError Node) × Cache}
    {P : Nat → Value → Prop}
    (hfev : ∀ cache e, CacheEvolves reg cache (f cache e).2)
    (hf : ∀ cache e n c2, f cache e = (.ok n, c2) →
      ∀ v, OutLeaf n v → P e v ∨ ∃ ee, ee ∈ c2.entries ∧ ee.2 = v) :
    ∀ (fs : List (FieldDesc × Nat)) (cache : Cache) (gs : List (FieldDesc × Node)) (c2 : Cache),
      traverseFields cfg reg store f cache fs = (.ok gs, c2) →
      ∀ v gn, gn ∈ gs → OutLeaf gn.2 v →
        (∃ fc, fc ∈ fs ∧ classify cfg fc.1 = none ∧ P fc.2 v) ∨
        ∃ ee, ee ∈ c2.entries ∧ ee.2 = v := by
  intro fs
  induction fs with
  | nil =>
    intro cache gs c2 h v gn hn hv
    simp [traverseFields] at h
    rw [h.1] at hn
    exact absurd hn (List.not_mem_nil gn)
  | cons fc fcs ih =>
    intro cache gs c2 h v gn hn hv
    cases hfe : scrubField cfg reg store f cache fc.1 fc.2 with
    | mk r c1 =>
      cases r with
      | error err => simp [traverseFields, hfe] at h
      | ok n1 =>
        cases hrest : traverseFields cfg reg store f c1 fcs with
        | mk r2 c3 =>
          cases r2 with
          | error err2 => simp [traverseFields, hfe, hrest] at h
          | ok gs2 =>
            simp [traverseFields, hfe, hrest] at h
            obtain ⟨h1, h2⟩ := h
            subst h1
            subst h2
            have hlift : ∀ ee, ee ∈ c1.entries → ee ∈ c3.entries := by
              intro ee hee
              have := (traverseFields_evolves cfg store hfev fcs c1).1 ee hee
              rwa [hrest] at this
            rcases List.mem_cons.mp hn with heq | hn2
            · subst heq
              rcases scrubField_ok_cases hfe with ⟨hcl, hrec⟩ |
                ⟨cat, strat, v0, w, hcl, hre, hlnc, htt, hw, hg⟩
              · rcases hf cache fc.2 n1 c1 hrec v hv with hp | ⟨ee, hee, hv2⟩
                · exact Or.inl ⟨fc, List.mem_cons_self fc fcs, hcl, hp⟩
                · exact Or.inr ⟨ee, hlift ee hee, hv2⟩
              · have hv3 : v = w := by
                  rw [show ((fc.1, n1) : FieldDesc × Node).2 = n1 from rfl] at hv
                  rw [hw] at hv
                  cases hv
                  rfl
                subst hv3
                have hlook := Cache.get_or_create_ok_lookup hg
                obtain ⟨ee, hee, _, hv2⟩ := Cache.lookup_some_mem hlook
                exact Or.inr ⟨ee, hlift ee hee, hv2⟩
            · rcases ih c1 gs2 c3 hrest v gn hn2 hv with ⟨fc2, hfc2, hcl2, hp⟩ | hee
              · exact Or.inl ⟨fc2, List.mem_cons_of_mem fc hfc2, hcl2, hp⟩
              · exact Or.inr hee

lemma traverseNode_ok_leaves (cfg : Config) (reg : List (String × Strategy))
    (store : List (Nat × NodeData)) :
    ∀ (d : Nat) (path : List Nat) (cache : Cache) (id : Nat) (out : Node) (c2 : Cache),
      traverseNode cfg reg store d path cache id = (.ok out, c2) →
      ∀ v, OutLeaf out v →
        UnclassifiedLeaf cfg store id v ∨ ∃ ee, ee ∈ c2.entries ∧ ee.2 = v := by
  intro d
  induction d with
  | zero =>
    intro path cache id out c2 h
    by_cases hp : id ∈ path <;> simp [traverseNode, hp] at h
  | succ d ih =>
    intro path cache id out c2 h v hv
    by_cases hp : id ∈ path
    · simp [traverseNode, hp] at h
    · cases hln : lookupNode store id with
      | none => simp [traverseNode, hp, hln] at h
      | some nd =>
        cases nd with
        | scalar v0 =>
          simp [traverseNode, hp, hln] at h
          obtain ⟨h1, h2⟩ := h
          subst h1
          cases hv
          exact Or.inl (UnclassifiedLeaf.scalar id _ hln)
        | seq es =>
          cases ht : traverseElems (traverseNode cfg reg store d (id :: path)) cache es with
          | mk r c3 =>
            cases r with
            | error err => simp [traverseNode, hp, hln, ht] at h
            | ok ns =>
              simp [traverseNode, hp, hln, ht] at h
              obtain ⟨h1, h2⟩ := h
              subst h1
              subst h2
              cases hv with
              | seq ns3 n v3 hn hv2 =>
                rcases traverseElems_ok_leaves
                  (fun cache2 e => traverseNode_evolves cfg reg store d (id :: path) cache2 e)
                  (fun cache2 e n2 c4 hh v2 hv3 => ih (id :: path) cache2 e n2 c4 hh v2 hv3)
                  es cache ns c3 ht v n hn hv2 with ⟨e, he, hpl⟩ | hee
                · exact Or.inl (UnclassifiedLeaf.seq id es e v hln he hpl)
                · exact Or.inr hee
        | map kvs =>
          cases ht : traverseMapEntries (traverseNode cfg reg store d (id :: path)) cache kvs with
          | mk r c3 =>
            cases r with
            | error err => simp [traverseNode, hp, hln, ht] at h
            | ok kns =>
              simp [traverseNode, hp, hln, ht] at h
              obtain ⟨h1, h2⟩ := h
              subst h1
              subst h2
              cases hv with
              | map kns3 kn v3 hkn hv2 =>
                rcases traverseMapEntries_ok_leaves
                  (fun cache2 e => traverseNode_evolves cfg reg store d (id :: path) cache2 e)
                  (fun cache2 e n2 c4 hh v2 hv3 => ih (id :: path) cache2 e n2 c4 hh v2 hv3)
                  kvs cache kns c3 ht v kn hkn hv2 with ⟨kv, hkv, hpl⟩ | hee
                · exact Or.inl (UnclassifiedLeaf.map id kvs kv v hln hkv hpl)
                · exact Or.inr hee
        | record fs =>
          cases ht : traverseFields cfg reg store (traverseNode cfg reg store d (id :: path)) cache fs with
          | mk r c3 =>
            cases r with
            | error err => simp [traverseNode, hp, hln, ht] at h
            | ok gs =>
              simp [traverseNode, hp, hln, ht] at h
              obtain ⟨h1, h2⟩ := h
              subst h1
              subst h2
              cases hv with
              | record gs3 gn v3 hgn hv2 =>
                rcases traverseFields_ok_leaves
                  (fun cache2 e => traverseNode_evolves cfg reg store d (id :: path) cache2 e)
                  (fun cache2 e n2 c4 hh v2 hv3 => ih (id :: path) cache2 e n2 c4 hh v2 hv3)
                  fs cache gs c3 ht v gn hgn hv2 with ⟨fc, hfc, hcl, hpl⟩ | hee
                · exact Or.inl (UnclassifiedLeaf.record id fs fc v hln hfc hcl hpl)
                · exact Or.inr hee

lemma scrub_no_leak (cfg : Config) (reg : List (String × Strategy)) (g : Graph)
    {out : Node} {c2 : Cache} {s : List Value}
    (hav : AvoidsOriginals reg s) (h : scrub cfg reg g emptyCache = (.ok out, c2)) :
    ∀ v, OutLeaf out v → v ∈ s → UnclassifiedLeaf cfg g.nodes g.root v := by
  intro v hv hs
  rcases traverseNode_ok_leaves cfg reg g.nodes cfg.maxDepth [] emptyCache g.root out c2
    h v hv with hu | ⟨ee, hee, hv2⟩
  · exact hu
  · exfalso
    have hc2 : (traverseNode cfg reg g.nodes cfg.maxDepth [] emptyCache g.root).2 = c2 := by
      rw [show traverseNode cfg reg g.nodes cfg.maxDepth [] emptyCache g.root =
        scrub cfg reg g emptyCache from rfl, h]
    have hprov :=
      (traverseNode_evolves cfg reg g.nodes cfg.maxDepth [] emptyCache g.root).2.2.2 ee
    rw [hc2] at hprov
    rcases hprov hee with hemp | ⟨cat, strat, orig, i, hres, hgen⟩
    · simp [emptyCache] at hemp
    · have hgs : strat.gen orig i ∈ s := by
        rw [← hgen, hv2]
        exact hs
      exact hav cat strat hres orig i hgs

lemma scrub_deep_error {cfg : Config} {reg : List (String × Strategy)} {g : Graph}
    {cache : Cache} {n b : Nat} (hch : Chain g.nodes n g.root b)
    (hn : cfg.maxDepth < n) : ∃ e, (scrub cfg reg g cache).1 = .error e := by
  cases hres : scrub cfg reg g cache with
  | mk r c2 =>
    cases r with
    | error e => exact ⟨e, rfl⟩
    | ok out =>
      exfalso
      have hb := traverseNode_ok_chain_bound cfg reg g.nodes cfg.maxDepth [] cache g.root
        out c2 hres n b hch
      omega

lemma chain_pump {store : List (Nat × NodeData)} {j kk : Nat}
    (h : Chain store (kk + 1) j j) : ∀ t, Chain store (t * (kk + 1)) j j := by
  intro t
  induction t with
  | zero => simpa using Chain.nil j
  | succ t ih =>
    have hstep := chain_trans ih h
    rwa [show t * (kk + 1) + (kk + 1) = (t + 1) * (kk + 1) by ring] at hstep

lemma scrub_cycle_error {cfg : Config} {reg : List (String × Strategy)} {g : Graph}
    {cache : Cache} (hcyc : HasReachableCycle g.nodes g.root) :
    ∃ e, (scrub cfg reg g cache).1 = .error e := by
  obtain ⟨j, m, kk, h1, h2⟩ := hcyc
  have hpump := chain_pump h2 (cfg.maxDepth + 1)
  have hbig := chain_trans h1 hpump
  refine scrub_deep_error hbig ?_
  have hge : cfg.maxDepth + 1 ≤ (cfg.maxDepth + 1) * (kk + 1) :=
    Nat.le_mul_of_pos_right _ (Nat.succ_pos kk)
  omega

/-- C1: within one session, once get_or_create has stored a synthetic value
for (category, original value), every later call with the same key — after
any sequence of further substitution requests — returns that stored value
with the cache unchanged, whatever factory the later call carries (so the
factory is not invoked). -/
theorem c1_cache_idempotent :
    ∀ (c : Cache) (r : Nat) (cat : String) (orig : Value)
      (f : Nat → Except ScrubError Value) (v : Value) (c1 : Cache),
      Cache.get_or_create c r cat orig f = (.ok v, c1) →
      ∀ (ops : List CacheOp) (r2 : Nat) (f2 : Nat → Except ScrubError Value),
        Cache.get_or_create (applyOps c1 ops) r2 cat orig f2 =
          (.ok v, applyOps c1 ops) := by
  intro c r cat orig f v c1 h ops r2 f2
  exact Cache.get_or_create_hit (applyOps_preserve ops (Cache.get_or_create_ok_lookup h))

/-- Witness for C1 at a concrete session: the email original a is bound to b,
an unrelated request is interposed, and a repeated request with a different
factory still returns b and leaves the cache unchanged. -/
theorem c1_cache_idempotent_witness :
    Cache.get_or_create
      (applyOps (Cache.insert emptyCache "email" (.vstr "a") (.vstr "b"))
        [⟨5, "email", .vstr "x", fun _ => .ok (.vstr "z")⟩]) 5 "email" (.vstr "a")
      (fun _ => .ok (.vstr "q")) =
      (.ok (.vstr "b"),
        applyOps (Cache.insert emptyCache "email" (.vstr "a") (.vstr "b"))
          [⟨5, "email", .vstr "x", fun _ => .ok (.vstr "z")⟩]) :=
  c1_cache_idempotent emptyCache 5 "email" (.vstr "a") (fun _ => .ok (.vstr "b"))
    (.vstr "b") (Cache.insert emptyCache "email" (.vstr "a") (.vstr "b")) rfl
    [⟨5, "email", .vstr "x", fun _ => .ok (.vstr "z")⟩] 5 (fun _ => .ok (.vstr "q"))

/-- C4: the default retry count is five; in any session cache reached from an
empty cache by substitution requests, distinct originals of one category
never share a synthetic value; and when the factory keeps colliding through
all retries, get_or_create fails with SynthesisExhaustedError and stores
nothing. -/
theorem c4_unique_synthetics :
    defaultConfig.retryLimit = 5 ∧
    (∀ (ops : List CacheOp) (cat : String) (o1 o2 v1 v2 : Value),
      (applyOps emptyCache ops).lookup cat o1 = some v1 →
      (applyOps emptyCache ops).lookup cat o2 = some v2 →
      o1 ≠ o2 → v1 ≠ v2) ∧
    (∀ (c : Cache) (r : Nat) (cat : String) (orig : Value)
      (f : Nat → Except ScrubError Value),
      c.lookup cat orig = none →
      (∀ j, j < r + 1 → ∃ v, f j = .ok v ∧ v ∈ c.issuedFor cat) →
      Cache.get_or_create c r cat orig f = (.error .synthesisExhaustedError, c)) := by
  refine ⟨rfl, ?_, ?_⟩
  · intro ops cat o1 o2 v1 v2 h1 h2 hne
    exact Cache.Ok_lookup_inj (applyOps_Ok ops emptyCache_Ok) h1 h2 hne
  · intro c r cat orig f hl hcol
    exact Cache.get_or_create_exhausts hl hcol

/-- Witness for C4: two distinct email originals receive distinct fakes, and
a factory colliding on every attempt exhausts with the cache untouched. -/
theorem c4_unique_synthetics_witness :
    (Value.vstr "x" ≠ Value.vstr "y") ∧
    Cache.get_or_create cacheC0 5 "email" (.vstr "q") (fun _ => .ok (.vstr "b")) =
      (.error .synthesisExhaustedError, cacheC0) :=
  ⟨c4_unique_synthetics.2.1
      [⟨5, "email", .vstr "a", fun _ => .ok (.vstr "x")⟩,
       ⟨5, "email", .vstr "c", fun _ => .ok (.vstr "y")⟩]
      "email" (.vstr "a") (.vstr "c") (.vstr "x") (.vstr "y") rfl rfl (by decide),
    c4_unique_synthetics.2.2 cacheC0 5 "email" (.vstr "q") (fun _ => .ok (.vstr "b"))
      rfl (fun j _ => ⟨.vstr "b", rfl, by decide⟩)⟩

/-- C3: whenever scrub succeeds, the output graph is shape-isomorphic to the
input: same node kinds at every position, same sequence lengths, same
mapping keys, same field descriptors, unclassified scalar leaves unchanged
and only classified scalar leaves substituted. -/
theorem c3_shape_preservation :
    ∀ (cfg : Config) (reg : List (String × Strategy)) (g : Graph) (cache : Cache)
      (out : Node) (c2 : Cache),
      scrub cfg reg g cache = (.ok out, c2) → Scrubbed cfg g.nodes g.root out := by
  intro cfg reg g cache out c2 h
  exact traverseNode_ok_scrubbed cfg reg g.nodes cfg.maxDepth [] cache g.root out c2 h

/-- Witness for C3 at a concrete record graph that scrubs successfully. -/
theorem c3_shape_preservation_witness :
    Scrubbed defaultConfig gLeak.nodes gLeak.root
      (.record [(emailFd, .scalar (.vstr "b")), (noteFd, .scalar (.vstr "a"))]) :=
  c3_shape_preservation defaultConfig regB gLeak emptyCache
    (.record [(emailFd, .scalar (.vstr "b")), (noteFd, .scalar (.vstr "a"))])
    (Cache.insert emptyCache "email" (.vstr "a") (.vstr "b")) rfl

/-- C5: a scrub call returns the input graph unchanged to its caller next to
the freshly built output; the engine never writes to the input graph. -/
theorem c5_no_mutation :
    ∀ (cfg : Config) (reg : List (String × Strategy)) (g : Graph) (cache : Cache),
      (scrubSession cfg reg g cache).2.1 = g := by
  intro cfg reg g cache
  cases h : scrub cfg reg g cache with
  | mk r c => simp [scrubSession, h]

/-- C6: a scrub call, successful or failed, keeps the session cache valid:
the cache invariant is preserved and every stored binding still answers
lookups with its stored synthetic value, so subsequent calls on the same
session stay consistent. -/
theorem c6_failure_keeps_cache_valid :
    ∀ (cfg : Config) (reg : List (String × Strategy)) (g : Graph) (c : Cache),
      (Cache.Ok c → Cache.Ok (scrub cfg reg g c).2) ∧
      (∀ cat o v, c.lookup cat o = some v →
        (scrub cfg reg g c).2.lookup cat o = some v) := by
  intro cfg reg g c
  exact ⟨(scrub_evolves cfg reg g c).2.2.1, (scrub_evolves cfg reg g c).2.1⟩

/-- Witness for C6 at a failing call: scrubbing a cyclic graph fails, yet the
session cache keeps its invariant and its stored email binding. -/
theorem c6_failure_keeps_cache_valid_witness :
    Cache.Ok (scrub defaultConfig regB gCyc cacheC0).2 ∧
    (scrub defaultConfig regB gCyc cacheC0).2.lookup "email" (.vstr "a") =
      some (.vstr "b") := by
  have hOk : Cache.Ok cacheC0 := by
    constructor
    · decide
    · intro cat
      by_cases hc : ("email" : String) = cat
      · simp [cacheC0, Cache.issuedFor, hc]
      · simp [cacheC0, Cache.issuedFor, hc]
  exact ⟨(c6_failure_keeps_cache_valid defaultConfig regB gCyc cacheC0).1 hOk,
    (c6_failure_keeps_cache_valid defaultConfig regB gCyc cacheC0).2 "email"
      (.vstr "a") (.vstr "b") rfl⟩

/-- Counterexample to C2 as stated: a graph whose unclassified note field
coincidentally holds the same string a as the classified email field scrubs
successfully, the strategy fakes b (never equal to the original a, so the
format-preserving exception does not apply), yet the classified original a
still appears in the output graph, through the untouched note leaf. -/
theorem c2_non_leakage_cex :
    scrub defaultConfig regB gLeak emptyCache =
      (.ok (.record [(emailFd, .scalar (.vstr "b")), (noteFd, .scalar (.vstr "a"))]),
        Cache.insert emptyCache "email" (.vstr "a") (.vstr "b")) ∧
    Value.vstr "a" ∈ classifiedOriginals defaultConfig gLeak.nodes ∧
    OutLeaf (.record [(emailFd, .scalar (.vstr "b")), (noteFd, .scalar (.vstr "a"))])
      (.vstr "a") ∧
    stratB.gen (.vstr "a") 0 = .vstr "b" := by
  refine ⟨rfl, by decide, ?_, rfl⟩
  exact OutLeaf.record _ (noteFd, .scalar (.vstr "a")) (.vstr "a")
    (List.mem_cons_of_mem _ (List.mem_cons_self _ _)) (OutLeaf.scalar _)

/-- C2 as amended: when every registered strategy only generates values
outside the classified originals of the input, a successful scrub of a fresh
session leaks no classified original except where the input itself already
held that value at an unclassified scalar position. -/
theorem c2_non_leakage_amended :
    ∀ (cfg : Config) (reg : List (String × Strategy)) (g : Graph) (out : Node)
      (c2 : Cache),
      AvoidsOriginals reg (classifiedOriginals cfg g.nodes) →
      scrub cfg reg g emptyCache = (.ok out, c2) →
      ∀ v, OutLeaf out v → v ∈ classifiedOriginals cfg g.nodes →
        UnclassifiedLeaf cfg g.nodes g.root v := by
  intro cfg reg g out c2 hav h
  exact scrub_no_leak cfg reg g hav h

/-- Witness for the amended C2: on the coincidence graph, the only leaked
classified original a is traced back to the unclassified note position. -/
theorem c2_non_leakage_amended_witness :
    UnclassifiedLeaf defaultConfig gLeak.nodes gLeak.root (.vstr "a") := by
  have hav : AvoidsOriginals regB (classifiedOriginals defaultConfig gLeak.nodes) := by
    intro cat strat hres orig i hmem
    have hs : strat = stratB := by
      unfold resolve lookupStr regB at hres
      by_cases hc : ("email" : String) = cat
      · rw [List.find?_cons_of_pos _ (by simpa using hc)] at hres
        simp at hres
        exact hres.symm
      · rw [List.find?_cons_of_neg _ (by simpa using hc)] at hres
        simp at hres
    subst hs
    have hgen : stratB.gen orig i = .vstr "b" := rfl
    rw [hgen] at hmem
    exact absurd hmem (by decide)
  exact c2_non_leakage_amended defaultConfig regB gLeak
    (.record [(emailFd, .scalar (.vstr "b")), (noteFd, .scalar (.vstr "a"))])
    (Cache.insert emptyCache "email" (.vstr "a") (.vstr "b")) hav rfl (.vstr "a")
    (OutLeaf.record _ (noteFd, .scalar (.vstr "a")) (.vstr "a")
      (List.mem_cons_of_mem _ (List.mem_cons_self _ _)) (OutLeaf.scalar _))
    (by decide)

/-- Counterexample to C7 as stated: a graph whose only reachable cycle sits
behind a classified field is rejected, but with SchemaMismatchError rather
than CyclicGraphError. -/
theorem c7_cyclic_cex :
    HasReachableCycle gClassCyc.nodes gClassCyc.root ∧
    (scrub defaultConfig regB gClassCyc emptyCache).1 = .error .schemaMismatchError := by
  refine ⟨⟨1, 1, 0, ?_, ?_⟩, rfl⟩
  · exact Chain.cons 0 (.record [(emailFd, 1)]) 1 0 1 rfl (by decide) (Chain.nil 1)
  · exact Chain.cons 1 (.seq [1]) 1 0 1 rfl (by decide) (Chain.nil 1)

/-- C7 as amended: every input graph with a cycle reachable from the root is
rejected — scrub fails with some taxonomy error and produces no output — and
a cycle the traversal walks into within the depth bound is reported as
CyclicGraphError, as the concrete two-node cycle shows. -/
theorem c7_cyclic_rejected :
    (∀ (cfg : Config) (reg : List (String × Strategy)) (g : Graph) (cache : Cache),
      HasReachableCycle g.nodes g.root → ∃ e, (scrub cfg reg g cache).1 = .error e) ∧
    (scrub defaultConfig regB gCyc emptyCache).1 = .error .cyclicGraphError := by
  refine ⟨?_, rfl⟩
  intro cfg reg g cache hcyc
  exact scrub_cycle_error hcyc

/-- Witness for the amended C7 at the concrete two-node cycle. -/
theorem c7_cyclic_rejected_witness :
    ∃ e, (scrub defaultConfig regB gCyc emptyCache).1 = .error e :=
  c7_cyclic_rejected.1 defaultConfig regB gCyc emptyCache
    ⟨0, 0, 1, Chain.nil 0,
      Chain.cons 0 (.seq [1]) 1 1 0 rfl (by decide)
        (Chain.cons 1 (.seq [0]) 0 0 0 rfl (by decide) (Chain.nil 0))⟩

/-- Counterexample to C8 as stated: a graph of nesting depth three under a
configured bound of two fails, but with UnknownCategoryError — an error met
earlier in traversal order preempts MaxDepthExceededError. -/
theorem c8_depth_cex :
    Chain gDeepUnknown.nodes 3 gDeepUnknown.root 4 ∧ cfgSmall.maxDepth < 3 ∧
    (scrub cfgSmall regB gDeepUnknown emptyCache).1 = .error .unknownCategoryError := by
  refine ⟨?_, by decide, rfl⟩
  exact Chain.cons 0 (.record [(ssnFd, 1), (noteFd, 2)]) 2 2 4 rfl (by decide)
    (Chain.cons 2 (.seq [3]) 3 1 4 rfl (by decide)
      (Chain.cons 3 (.seq [4]) 4 0 4 rfl (by decide) (Chain.nil 4)))

/-- C8 as amended: the depth bound is configurable with default 64; a graph
whose nesting depth exceeds the configured bound never scrubs successfully —
scrub fails with some taxonomy error instead of recursing unboundedly,
MaxDepthExceededError when depth exhaustion is the first failure met, as the
concrete record-free chain shows. -/
theorem c8_depth_bounded :
    defaultConfig.maxDepth = 64 ∧
    (∀ (cfg : Config) (reg : List (String × Strategy)) (g : Graph) (cache : Cache)
      (n b : Nat),
      Chain g.nodes n g.root b → cfg.maxDepth < n →
      ∃ e, (scrub cfg reg g cache).1 = .error e) ∧
    (scrub cfgSmall regB gDeep3 emptyCache).1 = .error .maxDepthExceededError := by
  refine ⟨rfl, ?_, rfl⟩
  intro cfg reg g cache n b hch hn
  exact scrub_deep_error hch hn

/-- Witness for the amended C8 at the concrete deep chain. -/
theorem c8_depth_bounded_witness :
    ∃ e, (scrub cfgSmall regB gDeep3 emptyCache).1 = .error e :=
  c8_depth_bounded.2.1 cfgSmall regB gDeep3 emptyCache 3 3
    (Chain.cons 0 (.seq [1]) 1 2 3 rfl (by decide)
      (Chain.cons 1 (.seq [2]) 2 1 3 rfl (by decide)
        (Chain.cons 2 (.seq [3]) 3 0 3 rfl (by decide) (Chain.nil 3))))
    (by decide)

/-- C9: the package version computed by setup.py is the value of the
CIRCLE_TAG environment variable when set, and 0.1.0 otherwise. -/
theorem c9_version_from_env :
    ∀ (env : String → Option String),
      (∀ v, env "CIRCLE_TAG" = some v → (setupArgs env).version = v) ∧
      (env "CIRCLE_TAG" = none → (setupArgs env).version = "0.1.0") := by
  intro env
  constructor
  · intro v h
    simp [setupArgs, setupVersion, h]
  · intro h
    simp [setupArgs, setupVersion, h]

/-- Witness for C9 at a set and an unset environment. -/
theorem c9_version_from_env_witness :
    (setupArgs (fun k => if k = "CIRCLE_TAG" then some "1.2.3" else none)).version =
      "1.2.3" ∧
    (setupArgs (fun _ => none)).version = "0.1.0" :=
  ⟨(c9_version_from_env (fun k => if k = "CIRCLE_TAG" then some "1.2.3" else none)).1
      "1.2.3" (by simp),
    (c9_version_from_env (fun _ => none)).2 rfl⟩

/-- C10: setup.py declares exactly the two runtime dependencies faker and
msgspec and requires Python at least 3.0, identically in every
environment. -/
theorem c10_declared_dependencies :
    ∀ (env : String → Option String),
      (setupArgs env).install_requires = ["faker", "msgspec"] ∧
      (setupArgs env).install_requires.length = 2 ∧
      (setupArgs env).python_requires = ">=3.0" := by
  intro env
  exact ⟨rfl, rfl, rfl⟩
